import Mathlib

/-!
Verification development for the history-loader and delta-reconciliation core of this
repository (`zipline/data/us_equity_loader.py` and
`zipline/pipeline/loaders/blaze/core.py`).

Modelling conventions:
* Trading-calendar dates and knowledge/as-of timestamps are integers (day numbers).
* float64 cells are rationals; a missing cell (NaN) is `none` in `Option ℚ`.
* `pandas` `searchsorted` on a sorted index is embedded as the length of the
  `takeWhile` prefix (`ssLeft`/`ssRight`), which agrees with binary search on sorted
  input; theorems carry sortedness hypotheses where the count interpretation is used.
* `get_loc` is embedded as the position of the date in the index (`findIdx`); it is
  total here, and theorems carry membership hypotheses wherever the Python code would
  raise `KeyError` instead.
-/

/-- A 2-D float64 array: rows (time, ascending) of columns (assets); `none` is NaN. -/
abbrev Frame := List (List (Option ℚ))

/-- `index.searchsorted(v, side='left')` on a sorted index: the insertion point before
any entries equal to `v`. -/
def ssLeft (xs : List Int) (v : Int) : Nat :=
  (xs.takeWhile (fun x => decide (x < v))).length

/-- `index.searchsorted(v, side='right')` on a sorted index: the insertion point after
any entries equal to `v`. -/
def ssRight (xs : List Int) (v : Int) : Nat :=
  (xs.takeWhile (fun x => decide (x ≤ v))).length

/-- `index.get_loc(v)`: the position of `v` in the index (the index length when `v` is
absent; theorems add membership hypotheses wherever Python would raise `KeyError`). -/
def getLoc (xs : List Int) (v : Int) : Nat := xs.findIdx (fun x => decide (x = v))

/-- `numpy.around(_, 3)`: round to three decimals.  numpy breaks exact half-way ties
to even; no claim exercises a tie, so ordinary rounding stands in. -/
def round3 (q : ℚ) : ℚ := (round (q * 1000) : ℚ) / 1000

/-- Rounding applied cellwise to a window (NaN stays NaN). -/
def round3Frame (f : Frame) : Frame := f.map (fun row => row.map (Option.map round3))

/-! ## Delta reconciliation engine (`zipline/pipeline/loaders/blaze/core.py`) -/

/-- One record of a baseline or deltas table: as-of date (`asof_date`), knowledge date
(`timestamp`), and the float64 value of the column being loaded. -/
structure DRec where
  asof : Int
  ts : Int
  val : ℚ
deriving DecidableEq

/-- The novelty test of `overwrite_novel_deltas` (core.py lines 648-652):
`dates.searchsorted(ts, 'right') - dates.searchsorted(asof, 'left') <= 1`, computed
against `dates`, the requested-date index. -/
def novelPred (dates : List Int) (r : DRec) : Bool :=
  decide (ssRight dates r.ts - ssLeft dates r.asof ≤ 1)

/-- Insertion into a knowledge-date-sorted list; models `sort_values(_, TS_FIELD_NAME)`
(pandas does not specify the order of ties, and no claim depends on it). -/
def insertTs (r : DRec) : List DRec → List DRec
  | [] => [r]
  | x :: xs => if r.ts ≤ x.ts then r :: x :: xs else x :: insertTs r xs

/-- `sort_values(df, TS_FIELD_NAME)` (core.py line 655). -/
def sortByTs (l : List DRec) : List DRec := l.foldr insertTs []

/-- `overwrite_novel_deltas(baseline, deltas, dates)` (core.py lines 630-658): split
the deltas on the novelty test over the requested dates; concatenate the novel ones
into the baseline and re-sort by knowledge date; return the merged table together with
the non-novel deltas. -/
def overwrite_novel_deltas (baseline deltas : List DRec) (dates : List Int) :
    List DRec × List DRec :=
  let novel := deltas.filter (novelPred dates)
  let non_novel := deltas.filter (fun r => !novelPred dates r)
  (sortByTs (baseline ++ novel), non_novel)

/-- `Float64Overwrite(first_row, last_row, first_col, last_col, value)`: replace every
cell of the closed row/column rectangle with `value`. -/
structure Float64Overwrite where
  firstRow : Int
  lastRow : Int
  firstCol : Int
  lastCol : Int
  value : ℚ
deriving DecidableEq

/-- `overwrite_from_dates(asof, dense_dates, sparse_dates, asset_idx, value)` (core.py
lines 661-717).  `none` models a NaT as-of date, which yields no overwrite; the
generator yields at most one overwrite, returned here as a list. -/
def overwrite_from_dates (asof : Option Int) (dense_dates sparse_dates : List Int)
    (asset_idx : Int × Int) (value : ℚ) : List Float64Overwrite :=
  match asof with
  | none => []
  | some a =>
    let first_row : Int := (ssLeft dense_dates a : Nat)
    let next_idx : Nat := ssRight sparse_dates a
    let last_row : Int :=
      if next_idx = sparse_dates.length then (dense_dates.length : Int) - 1
      else (ssLeft dense_dates (sparse_dates.getD next_idx 0) : Int) - 1
    if first_row > last_row then []
    else [⟨first_row, last_row, asset_idx.1, asset_idx.2, value⟩]

/-- The requested calendar date a knowledge date is grouped under in
`last_in_date_group` (core.py line 988): `dates[dates.searchsorted(ts)]`. -/
def tsKey (dates : List Int) (ts : Int) : Int := dates.getD (ssLeft dates ts) 0

/-- The keys of a `groupby(_, sort=False)` in order of first appearance. -/
def groupKeysInOrder (ks : List Int) : List Int :=
  ks.foldl (fun acc k => if k ∈ acc then acc else acc ++ [k]) []

/-- `last_in_date_group(df, reindex=False)` for a table without a sid column (core.py
lines 987-997): group rows by the requested date their knowledge date maps to and keep
the last row of each group, keys in order of first appearance. -/
def lastInDateGroupPairs (df : List DRec) (dates : List Int) : List (Int × DRec) :=
  (groupKeysInOrder (df.map (fun r => tsKey dates r.ts))).filterMap
    (fun k => ((df.filter (fun r => decide (tsKey dates r.ts = k))).getLast?).map
      (fun r => (k, r)))

/-- `adjustments_from_deltas_no_sids` (core.py lines 720-759): one overwrite generator
per grouped non-novel delta, keyed by the dense position of its mapped knowledge date;
the column range covers all requested assets (`idx = 0, len(asset_idx) - 1`). -/
def adjustments_from_deltas_no_sids (dense_dates sparse_dates : List Int)
    (assetCount : Nat) (sparse_deltas : List (Int × DRec)) :
    List (Int × List Float64Overwrite) :=
  sparse_deltas.map (fun p =>
    ((getLoc dense_dates p.1 : Int),
      overwrite_from_dates (some p.2.asof) dense_dates sparse_dates
        (0, (assetCount : Int) - 1) p.2.val))

/-- The delta-overwrite wiring of `_load_dataset` (core.py lines 980-1055, sid-less
case): reconcile baseline and deltas, then build overwrites for the non-novel deltas,
passing the merged sparse output's knowledge-date column
(`sparse_output[TS_FIELD_NAME].values`, line 1048) as the sparse dates. -/
def loadDatasetOverwrites (baseline deltas : List DRec) (dates : List Int)
    (assetCount : Nat) : List (Int × List Float64Overwrite) :=
  let p := overwrite_novel_deltas baseline deltas dates
  adjustments_from_deltas_no_sids dates (p.1.map DRec.ts) assetCount
    (lastInDateGroupPairs p.2 dates)

/-- The novelty count as claim C1 words it: the number of *baseline knowledge dates*
between the record's as-of date and its knowledge date, right-side search on the
knowledge date and left-side search on the as-of date. -/
def claimC1NovelCount (baseline : List DRec) (r : DRec) : Nat :=
  ssRight (baseline.map DRec.ts) r.ts - ssLeft (baseline.map DRec.ts) r.asof

/-- The first date in the list after `a`; for a sorted list, the next later date. -/
def nextAfter (xs : List Int) (a : Int) : Option Int :=
  xs.find? (fun d => decide (a < d))

/-- The last overwritten row claim C2 predicts: up to but not including the position of
the next later *as-of* date present in the sparse source (to the end of the requested
range when there is none). -/
def claimC2LastRow (dense_dates sparseAsofs : List Int) (a : Int) : Int :=
  match nextAfter sparseAsofs a with
  | some d => (ssLeft dense_dates d : Int) - 1
  | none => (dense_dates.length : Int) - 1

/-- The number of requested dates inclusively between `asof` and `ts`: the quantity the
right-minus-left search difference of the novelty test computes on a sorted index. -/
def interCount (dates : List Int) (r : DRec) : Nat :=
  dates.countP (fun d => decide (r.asof ≤ d) && decide (d ≤ r.ts))

/-- One forward-fill step: keep the cell when present, else the previous value. -/
def ffillStep (prev x : Option ℚ) : Option ℚ :=
  match x with
  | some v => some v
  | none => prev

/-- `DataFrame.ffill` on one column, threading the last seen value. -/
def ffill : List (Option ℚ) → Option ℚ → List (Option ℚ)
  | [], _ => []
  | x :: xs, prev => ffillStep prev x :: ffill xs (ffillStep prev x)

/-- `last_in_date_group` at one requested date for (knowledge date, value) rows
(core.py lines 987-997): the value of the last row of that date's group. -/
def lastInDateGroup (dates : List Int) (rows : List (Int × ℚ)) (d : Int) : Option ℚ :=
  ((rows.filter (fun r => decide (tsKey dates r.1 = d))).map Prod.snd).getLast?

/-- A dense reconciled column: group by mapped date taking the last row, reindex to the
requested dates, forward-fill (core.py lines 1017-1019). -/
def denseOutput (dates : List Int) (rows : List (Int × ℚ)) : List (Option ℚ) :=
  ffill (dates.map (lastInDateGroup dates rows)) none

/-- The (knowledge date, value) rows of a sid-less merged table. -/
def noSidRows (df : List DRec) : List (Int × ℚ) := df.map (fun r => (r.ts, r.val))

/-- One record of a merged table that has a sid column. -/
structure SRec where
  ts : Int
  sid : Nat
  val : ℚ
deriving DecidableEq

/-- The per-asset column of the sid-ful `last_in_date_group` (core.py lines 991-1011):
grouping by (mapped date, sid), taking the last row per group and unstacking exposes,
for asset `s`, exactly the rows of sid `s` in table order. -/
def sidRows (df : List SRec) (s : Nat) : List (Int × ℚ) :=
  (df.filter (fun r => r.sid == s)).map (fun r => (r.ts, r.val))

/-! ## History loader (`zipline/data/us_equity_loader.py`) -/

/-- OHLCV field names (`open` is spelled `opn`: `open` is a Lean keyword). -/
inductive FieldName
  | opn | high | low | close | volume
deriving DecidableEq

/-- What `_get_adjustments_in_range` receives as its `field` argument: either a field
name string, or the `USEquityPricing` column object `getattr(USEquityPricing, field)`
that `_ensure_sliding_window` actually passes (us_equity_loader.py lines 207, 216). -/
inductive FieldArg
  | str : FieldName → FieldArg
  | col : FieldName → FieldArg
deriving DecidableEq

/-- Modelled from the spec: `USEquityPricing` and its bound columns live outside src/
(`zipline.pipeline.data.equity_pricing`).  Per design note §9 the `getattr` dispatch
returns accessor objects, not field-name strings, so a Python `==`/`!=` test between a
column object and the string `'volume'` compares values of different types and the
objects are never equal; only a string argument can equal `'volume'`. -/
def FieldArg.isVolumeStr : FieldArg → Bool
  | .str f => f == .volume
  | .col _ => false

/-- Corporate-action kinds served by the adjustment reader. -/
inductive AdjKind
  | mergers | dividends | splits
deriving DecidableEq, Fintype

/-- One corporate-action event: effective date and stored ratio (the reader yields
`(effective_date, ratio)` pairs; the ratio field is named `factor` here). -/
structure AdjEvent where
  dt : Int
  factor : ℚ
deriving DecidableEq

/-- `Float64Multiply(first_row, last_row, first_col, last_col, value)`: multiply every
cell of the closed row/column rectangle by `value`. -/
structure Float64Multiply where
  firstRow : Int
  lastRow : Int
  firstCol : Int
  lastCol : Int
  value : ℚ
deriving DecidableEq

/-- One insertion into a Python dict held as an insertion-ordered association list: an
existing key keeps its position and takes the new value; a new key is appended. -/
def dictInsert (d : List (Nat × Nat)) (k v : Nat) : List (Nat × Nat) :=
  if d.any (fun p => p.1 == k) then d.map (fun p => if p.1 == k then (k, v) else p)
  else d ++ [(k, v)]

/-- `{int(asset): i for i, asset in enumerate(assets)}` (us_equity_loader.py line 113),
in dict insertion order. -/
def sidsDict (assets : List Nat) : List (Nat × Nat) :=
  assets.enum.foldl (fun d p => dictInsert d p.2 p.1) []

/-- One event loop of `_get_adjustments_in_range` (us_equity_loader.py lines 121-133,
136-148 and 151-167): for each event whose effective date lies in `(start, stop]`,
append a multiply over rows `0 .. get_loc(dt) - 1` of column `i`, keyed by
`get_loc(dt)`.  The dict of lists `loc -> [mult]` is held flat as `(loc, mult)` pairs
in insertion order. -/
def procEvents (events : List AdjEvent) (days : List Int) (start stop : Int) (i : Nat)
    (rf : ℚ → ℚ) : List (Int × Float64Multiply) :=
  (events.filter (fun ev => decide (start < ev.dt) && decide (ev.dt ≤ stop))).map
    (fun ev => ((getLoc days ev.dt : Int),
      ⟨0, (getLoc days ev.dt : Int) - 1, (i : Int), (i : Int), rf ev.factor⟩))

/-- `_get_adjustments_in_range(assets, days, field)` (us_equity_loader.py lines
84-168): mergers and dividends are processed when `field != 'volume'`; the split
factor is inverted when `field == 'volume'`. -/
def get_adjustments_in_range (getAdj : AdjKind → Nat → List AdjEvent) (field : FieldArg)
    (assets : List Nat) (days : List Int) : List (Int × Float64Multiply) :=
  let start := days.headD 0
  let stop := days.getLastD 0
  (sidsDict assets).flatMap (fun p =>
    (if !field.isVolumeStr then
      procEvents (getAdj .mergers p.1) days start stop p.2 id ++
        procEvents (getAdj .dividends p.1) days start stop p.2 id
    else []) ++
      procEvents (getAdj .splits p.1) days start stop p.2
        (fun f => if field.isVolumeStr then 1 / f else f))

/-- The multiplies stored under one trigger row of the flat adjustment dict. -/
def adjsAt (l : List (Int × Float64Multiply)) (loc : Int) : List Float64Multiply :=
  (l.filter (fun p => p.1 == loc)).map Prod.snd

/-- Modelled from the spec: the Adjusted Window Cursor
(`zipline.lib._float64window.AdjustedArrayWindow`, not under src/), per §4.2-§4.3:
it owns the raw buffer and the correction schedule; `next` exposes the first `size`
rows with no corrections applied (the *fresh* state); `seek target` applies the
still-pending corrections whose trigger is at most `target`, in schedule order, and
returns the trailing `size` rows ending at row `target - 1` (§4.3's
`end_ix - cal_start - offset + 1` translation makes `target` one past the last exposed
row).  Out-of-order and out-of-bounds seeks fail in the real cursor; no claim below
exercises them and they are left total here. -/
structure Float64WindowM where
  data : Frame
  adjs : List (Int × Float64Multiply)
  size : Nat
  pos : Nat
deriving DecidableEq

/-- Apply one multiply to the owned buffer. -/
def applyMult (f : Frame) (m : Float64Multiply) : Frame :=
  f.mapIdx (fun r row =>
    if m.firstRow ≤ (r : Int) ∧ (r : Int) ≤ m.lastRow then
      row.mapIdx (fun c x =>
        if m.firstCol ≤ (c : Int) ∧ (c : Int) ≤ m.lastCol then x.map (· * m.value)
        else x)
    else row)

/-- `next(window)`: the fresh first window. -/
def fwNext (w : Float64WindowM) : Frame × Float64WindowM :=
  (w.data.take w.size, { w with pos := w.size })

/-- `window.seek(target)`: fold in pending corrections triggered at or before
`target`, keep the rest, expose the trailing window ending at `target - 1`. -/
def fwSeek (w : Float64WindowM) (target : Int) : Frame × Float64WindowM :=
  let fire := w.adjs.filter (fun p => decide (p.1 ≤ target))
  let keep := w.adjs.filter (fun p => !decide (p.1 ≤ target))
  let data := fire.foldl (fun d p => applyMult d p.2) w.data
  let t := target.toNat
  ((data.drop (t - w.size)).take w.size, ⟨data, keep, w.size, t⟩)

/-- `SlidingWindow` (us_equity_loader.py lines 25-60), with a seek counter added so
the no-re-seek properties can be stated. -/
structure SlidingWindowM where
  window : Float64WindowM
  cal_start : Int
  offset : Int
  current : Frame
  most_recent_ix : Int
  seeks : Nat
deriving DecidableEq

/-- `SlidingWindow.__init__(window, size, cal_start, offset)` (lines 39-44):
materialize and round the first window; `most_recent_ix = cal_start + size`. -/
def mkSlidingWindow (w : Float64WindowM) (size : Nat) (cal_start offset : Int) :
    SlidingWindowM :=
  let p := fwNext w
  ⟨p.2, cal_start, offset, round3Frame p.1, cal_start + (size : Int), 0⟩

/-- `SlidingWindow.get(end_ix)` (lines 46-60): serve the memoized window when `end_ix`
equals the most recently served index, otherwise seek to
`end_ix - cal_start - offset + 1` and memoize. -/
def SlidingWindowM.get (sw : SlidingWindowM) (end_ix : Int) : Frame × SlidingWindowM :=
  if sw.most_recent_ix = end_ix then (sw.current, sw)
  else
    let target := end_ix - sw.cal_start - sw.offset + 1
    let p := fwSeek sw.window target
    let cur := round3Frame p.1
    (cur, ⟨p.2, sw.cal_start, sw.offset, cur, end_ix, sw.seeks + 1⟩)

/-- The collaborators and constants a `USEquityHistoryLoader` closes over:
`env.trading_days`, `daily_reader._calendar`, `daily_reader.load_raw_arrays` (as a
cell function sid × day → value), the optional adjustment reader, and
`_prefetch_length` (40 for the daily loader, us_equity_loader.py line 82). -/
structure LoaderCtx where
  tradingDays : List Int
  calendar : List Int
  raw : Nat → Int → Option ℚ
  adjReader : Option (AdjKind → Nat → List AdjEvent)
  prefetchLength : Nat

/-- `self._prefetch_length` of the daily loader (us_equity_loader.py line 82). -/
def dailyPrefetchLength : Nat := 40

/-- Cache key `(frozenset(assets), field, size)`; the frozen set is held as a sorted
deduplicated list. -/
abbrev BlockKey := List Nat × FieldName × Nat

/-- The cache key of a request. -/
def canonKey (assets : List Nat) (field : FieldName) (size : Nat) : BlockKey :=
  (assets.dedup.mergeSort (fun a b => decide (a ≤ b)), field, size)

/-- Modelled from the spec: `CachedObject` and `Expired` (`zipline.utils.cache`, not
under src/), per §3/§4.4: a payload with an expiry date; `unwrap(dt)` returns the
payload while `dt ≤ expires` and signals `Expired` once `dt` exceeds it. -/
structure CachedObject where
  block : SlidingWindowM
  expires : Int

/-- `self._daily_window_blocks`: a dict from cache key to `CachedObject`, newest entry
first (re-inserting a key shadows the stale entry, as a dict update would replace it). -/
structure LoaderState where
  blocks : List (BlockKey × CachedObject)

/-- Dict lookup in the block cache. -/
def lookupBlock : List (BlockKey × CachedObject) → BlockKey → Option CachedObject
  | [], _ => none
  | p :: rest, key => if p.1 = key then some p.2 else lookupBlock rest key

/-- `end_ix` as a rebuild computes it (us_equity_loader.py lines 185-205). -/
def rebuildEndIx (L : LoaderCtx) (start stop : Int) : Nat :=
  if start < L.calendar.getD 0 0 then
    (if stop < L.calendar.getD 0 0 then 0 else getLoc L.calendar stop)
  else getLoc L.calendar stop

/-- `start_ix` as a rebuild computes it (lines 187, 204). -/
def rebuildStartIx (L : LoaderCtx) (start : Int) : Nat :=
  if start < L.calendar.getD 0 0 then 0 else getLoc L.calendar start

/-- The `offset` handed to the sliding window (lines 188-190, 203): how far the
request start lies before the reader's first session, in `env.trading_days`
positions (non-positive). -/
def rebuildOffset (L : LoaderCtx) (start : Int) : Int :=
  if start < L.calendar.getD 0 0 then
    (getLoc L.tradingDays start : Int) -
      (getLoc L.tradingDays (L.calendar.getD 0 0) : Int)
  else 0

/-- The leading fill block of a rebuild (lines 185-201): `none` when the request
starts inside the data; otherwise `fill_size` rows — the window size when the request
ends before the data, else `slice_indexer(start, stop)`'s span over the reader
calendar — of a *single* column of NaN (0 for volume), `full((fill_size, 1), _)`
verbatim; `numpy.concatenate` would reject that single column whenever more than one
asset is requested. -/
def rebuildPreArray (L : LoaderCtx) (start stop : Int) (size : Nat) (field : FieldName) :
    Option Frame :=
  if start < L.calendar.getD 0 0 then
    let fill_size :=
      if stop < L.calendar.getD 0 0 then size
      else ssRight L.calendar stop - ssLeft L.calendar start
    some (List.replicate fill_size [if field = .volume then some 0 else none])
  else none

/-- The expiry stored with a rebuilt block: the session at
`min(end_ix + prefetch_length, len(calendar) - 1)` (lines 209-210, 234-235). -/
def rebuildExpiry (L : LoaderCtx) (start stop : Int) : Int :=
  L.calendar.getD (min (rebuildEndIx L start stop + L.prefetchLength)
    (L.calendar.length - 1)) 0

/-- The prefetched day range `cal[start_ix : prefetch_end_ix + 1]` (line 212). -/
def rebuildDays (L : LoaderCtx) (start stop : Int) : List Int :=
  let start_ix := rebuildStartIx L start
  let pfix := min (rebuildEndIx L start stop + L.prefetchLength)
    (L.calendar.length - 1)
  (L.calendar.drop start_ix).take (pfix + 1 - start_ix)

/-- The `SlidingWindow` a rebuild constructs (lines 182-233): load the raw rows for
the prefetched days, collect adjustments (note line 216 passes the *column object*
`col`, not the `field` string), prepend the fill block when there is one, wrap in a
cursor and a sliding window.  Cells are rationals, so the volume float64 coercion of
line 220 is the identity here. -/
def rebuildBlock (L : LoaderCtx) (assets : List Nat) (start stop : Int) (size : Nat)
    (field : FieldName) : SlidingWindowM :=
  let days := rebuildDays L start stop
  let array : Frame := days.map (fun d => assets.map (fun a => L.raw a d))
  let adjs := match L.adjReader with
    | some g => get_adjustments_in_range g (.col field) assets days
    | none => []
  let data := match rebuildPreArray L start stop size field with
    | some pre => pre ++ array
    | none => array
  mkSlidingWindow ⟨data, adjs, size, 0⟩ size ((rebuildStartIx L start : Nat) : Int)
    (rebuildOffset L start)

/-- `_ensure_sliding_window(assets, start, end, size, field)` (us_equity_loader.py
lines 170-236), with the loader state passed explicitly.  The third component of the
result counts the collaborator reads (`load_raw_arrays` plus the adjustment-reader
pass) the call performed: 0 on a cache hit, 1 on a rebuild. -/
def ensure_sliding_window (L : LoaderCtx) (s : LoaderState) (assets : List Nat)
    (start stop : Int) (size : Nat) (field : FieldName) :
    SlidingWindowM × LoaderState × Nat :=
  match lookupBlock s.blocks (canonKey assets field size) with
  | some co =>
    if stop ≤ co.expires then (co.block, s, 0)
    else
      (rebuildBlock L assets start stop size field,
        ⟨(canonKey assets field size,
          ⟨rebuildBlock L assets start stop size field, rebuildExpiry L start stop⟩) ::
          s.blocks⟩, 1)
  | none =>
    (rebuildBlock L assets start stop size field,
      ⟨(canonKey assets field size,
        ⟨rebuildBlock L assets start stop size field, rebuildExpiry L start stop⟩) ::
        s.blocks⟩, 1)

/-- Replace the cached sliding window under `key`: the Python block object is mutated
in place by `get`, so the dict entry keeps its key and expiry but sees the advanced
cursor. -/
def writeBack (s : LoaderState) (key : BlockKey) (b : SlidingWindowM) : LoaderState :=
  ⟨s.blocks.map (fun p => if p.1 = key then (p.1, ⟨b, p.2.expires⟩) else p)⟩

/-- `history(assets, dts, field)` (us_equity_loader.py lines 238-267): ensure a
sliding window for `(frozenset(assets), field, len(dts))` and serve the window ending
at `dts[-1]`. -/
def history (L : LoaderCtx) (s : LoaderState) (assets : List Nat) (dts : List Int)
    (field : FieldName) : Frame × LoaderState :=
  let start := dts.headD 0
  let stop := dts.getLastD 0
  let size := dts.length
  let r := ensure_sliding_window L s assets start stop size field
  let end_ix : Int :=
    if stop > L.calendar.getD 0 0 then ((getLoc L.calendar stop : Nat) : Int)
    else (size : Int)
  let p := r.1.get end_ix
  (p.1, writeBack r.2.1 (canonKey assets field size) p.2)

/-! ## Minute history loader (`USEquityMinuteHistoryLoader`) -/

/-- The attributes `USEquityMinuteHistoryLoader.__init__` sets (us_equity_loader.py
lines 272-280); the daily names `_daily_window_blocks`, `_daily_reader` and
`_calendar` that its method bodies read are not among them. -/
def minuteLoaderInitAttrs : List String :=
  ["env", "_minute_reader", "_adjustments_reader", "_minute_window_blocks",
   "_prefetch_length"]

/-- The Python error surfaced by the minute loader. -/
inductive PyErr
  | attributeError
deriving DecidableEq

/-- `USEquityMinuteHistoryLoader._ensure_sliding_window` (lines 368-434) as executed
on a freshly constructed loader: its first action (line 372) reads
`self._daily_window_blocks`, which `__init__` never sets, so Python raises
`AttributeError` before the cache is consulted (the surrounding handler catches only
`KeyError`); no later line of the method can run, which the impossible first branch
records. -/
def minute_ensure_sliding_window (assets : List Nat) (start stop : Int) (size : Nat)
    (field : FieldName) : Except PyErr SlidingWindowM :=
  if h : "_daily_window_blocks" ∈ minuteLoaderInitAttrs then absurd h (by decide)
  else .error .attributeError

/-- `USEquityMinuteHistoryLoader.history` (lines 436-465) on a fresh loader: the
ensure call raises; had it returned, line 461 would read `self._calendar`, another
attribute `__init__` never sets. -/
def minuteHistory (assets : List Nat) (dts : List Int) (field : FieldName) :
    Except PyErr Frame :=
  (minute_ensure_sliding_window assets (dts.headD 0) (dts.getLastD 0) dts.length
    field).bind (fun _block =>
      if h : "_calendar" ∈ minuteLoaderInitAttrs then absurd h (by decide)
      else .error .attributeError)

/-! ## Helper lemmas -/

theorem lookupBlock_cons_self (key : BlockKey) (co : CachedObject)
    (rest : List (BlockKey × CachedObject)) :
    lookupBlock ((key, co) :: rest) key = some co := by
  simp [lookupBlock]

theorem ensure_hit (L : LoaderCtx) (s : LoaderState) (assets : List Nat)
    (start stop : Int) (size : Nat) (field : FieldName) (co : CachedObject)
    (hl : lookupBlock s.blocks (canonKey assets field size) = some co)
    (he : stop ≤ co.expires) :
    ensure_sliding_window L s assets start stop size field = (co.block, s, 0) := by
  unfold ensure_sliding_window
  rw [hl]
  simp [he]

theorem ensure_miss (L : LoaderCtx) (s : LoaderState) (assets : List Nat)
    (start stop : Int) (size : Nat) (field : FieldName)
    (hmiss : ∀ co, lookupBlock s.blocks (canonKey assets field size) = some co →
      co.expires < stop) :
    ensure_sliding_window L s assets start stop size field =
      (rebuildBlock L assets start stop size field,
        ⟨(canonKey assets field size,
          ⟨rebuildBlock L assets start stop size field, rebuildExpiry L start stop⟩) ::
          s.blocks⟩, 1) := by
  unfold ensure_sliding_window
  cases hl : lookupBlock s.blocks (canonKey assets field size) with
  | none => rfl
  | some co =>
    have := hmiss co hl
    simp [not_le.mpr this]

/-! ## Claim theorems -/

/-- C1 (counterexample): with requested dates `[0, 1, 2, 3]`, a baseline whose only
knowledge date is `0`, and one delta as-of `0` known at `3`, no baseline knowledge
date lies between the delta's as-of date and its knowledge date — the claim's count is
at most 1, so the claim calls the delta novel — yet `overwrite_novel_deltas` excludes
it from the merge and returns it as a retroactive delta: the code counts *requested
dates*, not baseline knowledge dates. -/
theorem c1_counterexample :
    (overwrite_novel_deltas [⟨0, 0, 1⟩] [⟨0, 3, 2⟩] [0, 1, 2, 3]).2 = [⟨0, 3, 2⟩]
    ∧ claimC1NovelCount [⟨0, 0, 1⟩] ⟨0, 3, 2⟩ ≤ 1
    ∧ (⟨0, 3, 2⟩ : DRec) ∉ (overwrite_novel_deltas [⟨0, 0, 1⟩] [⟨0, 3, 2⟩] [0, 1, 2, 3]).1 := by
  refine ⟨by decide, by decide, by decide⟩

/-- C2 (counterexample): requested dates `[0, 1, 2, 3, 4]`, baseline records
(as-of 0, known 0) and (as-of 3, known 2), one retroactive delta as-of `1` known at
`4`.  The merged sparse output's as-of dates are `[0, 3]`, so the claim predicts the
overwrite runs up to but not including the position of as-of date `3`, i.e. through
row 2; but the code searches the merged output's *knowledge* dates `[0, 2]` and the
generated overwrite stops at row 1. -/
theorem c2_counterexample :
    loadDatasetOverwrites [⟨0, 0, 10⟩, ⟨3, 2, 20⟩] [⟨1, 4, 99⟩] [0, 1, 2, 3, 4] 1 =
      [(4, [⟨1, 1, 0, 0, 99⟩])]
    ∧ claimC2LastRow [0, 1, 2, 3, 4]
        ((overwrite_novel_deltas [⟨0, 0, 10⟩, ⟨3, 2, 20⟩] [⟨1, 4, 99⟩]
          [0, 1, 2, 3, 4]).1.map DRec.asof) 1 = 2
    ∧ (1 : Int) ≠ 2 := by
  refine ⟨by decide, by decide, by decide⟩

/-- C7 (confirmed): `SlidingWindow.get` called again with the same `end_ix` as the
immediately preceding call returns the identical memoized window, performs no seek on
the cursor, and leaves the sliding-window state (memoized slice, most-recent index,
seek count) unchanged. -/
theorem c7_get_idempotent (sw : SlidingWindowM) (e : Int) (o : Frame)
    (sw2 : SlidingWindowM) (h : sw.get e = (o, sw2)) :
    sw2.get e = (o, sw2) ∧ (sw2.get e).2.seeks = sw2.seeks := by
  have hm : sw2.most_recent_ix = e ∧ sw2.current = o := by
    unfold SlidingWindowM.get at h
    split at h
    · next heq =>
      cases h
      exact ⟨heq, rfl⟩
    · cases h
      exact ⟨rfl, rfl⟩
  have hgot : sw2.get e = (o, sw2) := by
    unfold SlidingWindowM.get
    rw [if_pos hm.1, hm.2]
  exact ⟨hgot, by rw [hgot]⟩

/-- Witness for C7 at a concrete sliding window and repeated index 5. -/
theorem c7_get_idempotent_witness :
    (((mkSlidingWindow ⟨[[some 1], [some 2]], [], 1, 0⟩ 1 0 0).get 5).2).get 5 =
      (((mkSlidingWindow ⟨[[some 1], [some 2]], [], 1, 0⟩ 1 0 0).get 5).1,
        ((mkSlidingWindow ⟨[[some 1], [some 2]], [], 1, 0⟩ 1 0 0).get 5).2)
    ∧ ((((mkSlidingWindow ⟨[[some 1], [some 2]], [], 1, 0⟩ 1 0 0).get 5).2).get 5).2.seeks =
      (((mkSlidingWindow ⟨[[some 1], [some 2]], [], 1, 0⟩ 1 0 0).get 5).2).seeks :=
  c7_get_idempotent (mkSlidingWindow ⟨[[some 1], [some 2]], [], 1, 0⟩ 1 0 0) 5 _ _ rfl

/-- C10 (confirmed): a freshly constructed `USEquityMinuteHistoryLoader` fails on its
first `history` call with an `AttributeError` for every input: `_ensure_sliding_window`
reads `self._daily_window_blocks` (and later `self._daily_reader`), which the
constructor — setting `_minute_window_blocks` and `_minute_reader` instead — never
initializes, so the cache lookup raises before any data is served. -/
theorem c10_minute_loader_attribute_error :
    (∀ (assets : List Nat) (dts : List Int) (field : FieldName),
      minuteHistory assets dts field = .error .attributeError)
    ∧ "_daily_window_blocks" ∉ minuteLoaderInitAttrs
    ∧ "_daily_reader" ∉ minuteLoaderInitAttrs
    ∧ "_minute_window_blocks" ∈ minuteLoaderInitAttrs
    ∧ "_minute_reader" ∈ minuteLoaderInitAttrs := by
  exact ⟨fun assets dts field => rfl, by decide, by decide, by decide, by decide⟩

/-- The trading days of the C4 failing input: seven sessions `1 .. 7`. -/
def tdC4 : List Int := [1, 2, 3, 4, 5, 6, 7]

/-- The reader calendar of the C4 failing input: data starts at session `3`. -/
def calC4 : List Int := [3, 4, 5, 6, 7]

/-- The C4 failing input's loader: one asset, raw value `10 * day`, no adjustment
reader, the daily prefetch length. -/
def loaderC4 : LoaderCtx := ⟨tdC4, calC4, fun _ d => some (10 * d), none, dailyPrefetchLength⟩

/-- C4 (code bug, evaluation): requesting `[1, 2, 3, 4, 5]` when data starts at `3`
returns three NaN rows followed by the values of sessions 3 and 4, although only two
requested sessions precede the data (the correct window per the claim and the spec is
`[NaN, NaN, 30, 40, 50]`): the rebuild sizes the fill from `slice_indexer(start, end)`
— the sessions from the data start through `end` — instead of the sessions before the
data start. -/
theorem c4_before_data_fill_eval :
    (history loaderC4 ⟨[]⟩ [7] [1, 2, 3, 4, 5] .close).1 =
      [[none], [none], [none], [some 30], [some 40]]
    ∧ (getLoc tdC4 (calC4.getD 0 0) : Int) - (getLoc tdC4 1 : Int) = 2
    ∧ ([[none], [none], [none], [some 30], [some 40]] : Frame) ≠
      [[none], [none], [some 30], [some 40], [some 50]] := by
  refine ⟨by with_unfolding_all decide, by decide, by with_unfolding_all decide⟩

/-- The C5 failing input's adjustment reader: one 2-for-1 split (stored ratio `1/2`)
for sid 7 effective at day 2. -/
def splitReaderC5 : AdjKind → Nat → List AdjEvent :=
  fun k s => if k = .splits ∧ s = 7 then [⟨2, 1/2⟩] else []

/-- The C5 failing input's loader. -/
def loaderC5 : LoaderCtx :=
  ⟨[0, 1, 2, 3, 4, 5], [0, 1, 2, 3, 4, 5], fun _ _ => some 8, some splitReaderC5,
    dailyPrefetchLength⟩

/-- C5 (code bug, evaluation): a volume request builds its split correction with the
*stored* ratio `1/2`, not the reciprocal `2`: `_ensure_sliding_window` passes the
column object `col` to `_get_adjustments_in_range` (line 216), so the `field ==
'volume'` test inside never fires. -/
theorem c5_volume_split_factor_eval :
    (ensure_sliding_window loaderC5 ⟨[]⟩ [7] 0 3 4 .volume).1.window.adjs =
      [(2, ⟨0, 1, 0, 0, (1 : ℚ)/2⟩)]
    ∧ 1 / ((1 : ℚ)/2) = 2
    ∧ ((1 : ℚ)/2) ≠ 2 := by
  refine ⟨by with_unfolding_all decide, by norm_num, by norm_num⟩

/-- The C9 failing input's adjustment reader: one merger (ratio `9/10`) for sid 7
effective at day 2, and nothing else. -/
def mergerReaderC9 : AdjKind → Nat → List AdjEvent :=
  fun k s => if k = .mergers ∧ s = 7 then [⟨2, 9/10⟩] else []

/-- The C9 failing input's loader. -/
def loaderC9 : LoaderCtx :=
  ⟨[0, 1, 2, 3, 4, 5], [0, 1, 2, 3, 4, 5], fun _ _ => some 10, some mergerReaderC9,
    dailyPrefetchLength⟩

/-- The same loader with an event-free adjustment reader. -/
def loaderC9NoMerger : LoaderCtx :=
  ⟨[0, 1, 2, 3, 4, 5], [0, 1, 2, 3, 4, 5], fun _ _ => some 10, some (fun _ _ => []),
    dailyPrefetchLength⟩

/-- C9 (code bug, evaluation): a volume history request is *not* independent of merger
events — with a merger of ratio `9/10` at day 2 the returned volumes are scaled before
that day, and differ from the merger-free run: because `_ensure_sliding_window` passes
the column object rather than the field string, the `field != 'volume'` guard always
holds and mergers (and dividends) are consulted for volume too. -/
theorem c9_volume_merger_eval :
    (history loaderC9 ⟨[]⟩ [7] [0, 1, 2, 3] .volume).1 =
      [[some 9], [some 9], [some 10], [some 10]]
    ∧ (history loaderC9NoMerger ⟨[]⟩ [7] [0, 1, 2, 3] .volume).1 =
      [[some 10], [some 10], [some 10], [some 10]]
    ∧ ([[some (9 : ℚ)], [some 9], [some 10], [some 10]] : Frame) ≠
      [[some 10], [some 10], [some 10], [some 10]] := by
  refine ⟨by with_unfolding_all decide, by with_unfolding_all decide, by decide⟩

theorem ssRight_sorted (xs : List Int) (v : Int) (h : List.Sorted (· ≤ ·) xs) :
    ssRight xs v = xs.countP (fun x => decide (x ≤ v)) := by
  induction xs with
  | nil => rfl
  | cons x xs ih =>
    rcases List.sorted_cons.mp h with ⟨hx, hs⟩
    by_cases hv : x ≤ v
    · have e1 : ssRight (x :: xs) v = ssRight xs v + 1 := by
        simp [ssRight, List.takeWhile_cons, hv]
      rw [e1, ih hs, List.countP_cons]
      simp [hv]
    · have h0 : xs.countP (fun x => decide (x ≤ v)) = 0 := by
        rw [List.countP_eq_zero]
        intro a ha
        have := hx a ha
        simp only [decide_eq_true_eq]
        omega
      have e1 : ssRight (x :: xs) v = 0 := by
        simp [ssRight, List.takeWhile_cons, hv]
      rw [e1, List.countP_cons, h0]
      simp [hv]

theorem ssLeft_sorted (xs : List Int) (v : Int) (h : List.Sorted (· ≤ ·) xs) :
    ssLeft xs v = xs.countP (fun x => decide (x < v)) := by
  induction xs with
  | nil => rfl
  | cons x xs ih =>
    rcases List.sorted_cons.mp h with ⟨hx, hs⟩
    by_cases hv : x < v
    · have e1 : ssLeft (x :: xs) v = ssLeft xs v + 1 := by
        simp [ssLeft, List.takeWhile_cons, hv]
      rw [e1, ih hs, List.countP_cons]
      simp [hv]
    · have h0 : xs.countP (fun x => decide (x < v)) = 0 := by
        rw [List.countP_eq_zero]
        intro a ha
        have := hx a ha
        simp only [decide_eq_true_eq]
        omega
      have e1 : ssLeft (x :: xs) v = 0 := by
        simp [ssLeft, List.takeWhile_cons, hv]
      rw [e1, List.countP_cons, h0]
      simp [hv]

theorem countP_le_split (l : List Int) (a t : Int) (h : a ≤ t + 1) :
    l.countP (fun d => decide (d ≤ t)) =
      l.countP (fun d => decide (d < a)) +
        l.countP (fun d => decide (a ≤ d) && decide (d ≤ t)) := by
  induction l with
  | nil => rfl
  | cons x l ih =>
    simp only [List.countP_cons, ih]
    by_cases h1 : x < a <;> by_cases h2 : x ≤ t <;> by_cases h3 : a ≤ x ∧ x ≤ t <;>
      simp [h1, h2, h3] <;> (try split_ifs with h4) <;> omega

theorem novel_count_eq (dates : List Int) (hd : List.Sorted (· ≤ ·) dates) (r : DRec) :
    ssRight dates r.ts - ssLeft dates r.asof = interCount dates r := by
  rw [ssRight_sorted _ _ hd, ssLeft_sorted _ _ hd, interCount]
  by_cases h : r.asof ≤ r.ts + 1
  · rw [countP_le_split dates r.asof r.ts h]
    omega
  · have h1 : dates.countP (fun d => decide (d ≤ r.ts)) ≤
        dates.countP (fun d => decide (d < r.asof)) := by
      apply List.countP_mono_left
      intro d _ hdec
      rw [decide_eq_true_eq] at hdec ⊢
      omega
    have h2 : dates.countP (fun d => decide (r.asof ≤ d) && decide (d ≤ r.ts)) = 0 := by
      rw [List.countP_eq_zero]
      intro d _
      rw [Bool.and_eq_true, decide_eq_true_eq, decide_eq_true_eq]
      omega
    omega

theorem novelPred_iff (dates : List Int) (hd : List.Sorted (· ≤ ·) dates) (r : DRec) :
    novelPred dates r = decide (interCount dates r ≤ 1) := by
  rw [novelPred, novel_count_eq dates hd r]

theorem insertTs_perm (r : DRec) (l : List DRec) : (insertTs r l).Perm (r :: l) := by
  induction l with
  | nil => simp [insertTs]
  | cons x xs ih =>
    by_cases h : r.ts ≤ x.ts
    · simp [insertTs, h]
    · simp only [insertTs, if_neg h]
      exact (ih.cons x).trans (List.Perm.swap r x xs)

theorem sortByTs_perm (l : List DRec) : (sortByTs l).Perm l := by
  induction l with
  | nil => simp [sortByTs]
  | cons x xs ih =>
    have : sortByTs (x :: xs) = insertTs x (sortByTs xs) := rfl
    rw [this]
    exact (insertTs_perm x (sortByTs xs)).trans (ih.cons x)

theorem insertTs_sorted (r : DRec) (l : List DRec)
    (h : List.Pairwise (fun a b : DRec => a.ts ≤ b.ts) l) :
    List.Pairwise (fun a b : DRec => a.ts ≤ b.ts) (insertTs r l) := by
  induction l with
  | nil => simp [insertTs]
  | cons x xs ih =>
    rcases List.pairwise_cons.mp h with ⟨hx, hxs⟩
    by_cases hle : r.ts ≤ x.ts
    · simp only [insertTs, if_pos hle]
      refine List.Pairwise.cons ?_ h
      intro b hb
      rcases List.mem_cons.mp hb with rfl | hb2
      · exact hle
      · exact le_trans hle (hx b hb2)
    · simp only [insertTs, if_neg hle]
      refine List.Pairwise.cons ?_ (ih hxs)
      intro b hb
      rcases List.mem_cons.mp ((insertTs_perm r xs).mem_iff.mp hb) with rfl | hb2
      · omega
      · exact hx b hb2

theorem sortByTs_sorted (l : List DRec) :
    List.Pairwise (fun a b : DRec => a.ts ≤ b.ts) (sortByTs l) := by
  induction l with
  | nil => exact List.Pairwise.nil
  | cons x xs ih => exact insertTs_sorted x (sortByTs xs) ih

/-- C1 (as amended): `overwrite_novel_deltas` classifies a delta as novel exactly when
the number of *requested dates* inclusively between its as-of date and its knowledge
date (right-side search on the knowledge date minus left-side search on the as-of
date over the requested-date index) is at most 1; every novel record is concatenated
into the baseline and the merged table is re-sorted by knowledge date, and every
non-novel record is excluded from the merge and returned separately as a retroactive
delta. -/
theorem c1_novelty_classification (baseline deltas : List DRec) (dates : List Int)
    (hd : List.Sorted (· ≤ ·) dates) :
    (∀ r ∈ deltas,
      r ∈ (overwrite_novel_deltas baseline deltas dates).2 ↔ 1 < interCount dates r)
    ∧ List.Pairwise (fun a b : DRec => a.ts ≤ b.ts)
        (overwrite_novel_deltas baseline deltas dates).1
    ∧ (overwrite_novel_deltas baseline deltas dates).1.Perm
        (baseline ++ deltas.filter (fun r => decide (interCount dates r ≤ 1)))
    ∧ (overwrite_novel_deltas baseline deltas dates).2 =
        deltas.filter (fun r => decide (1 < interCount dates r)) := by
  have hnov : deltas.filter (novelPred dates) =
      deltas.filter (fun r => decide (interCount dates r ≤ 1)) := by
    apply List.filter_congr
    intro r _
    rw [novelPred_iff dates hd r]
  have hnon : deltas.filter (fun r => !novelPred dates r) =
      deltas.filter (fun r => decide (1 < interCount dates r)) := by
    apply List.filter_congr
    intro r _
    rw [novelPred_iff dates hd r]
    rcases Nat.lt_or_ge 1 (interCount dates r) with h | h
    · simp [h, Nat.not_le.mpr h]
    · simp [Nat.not_lt.mpr h, Nat.le_of_lt_succ (Nat.lt_succ_of_le h)]
  refine ⟨?_, ?_, ?_, ?_⟩
  · intro r hr
    show r ∈ deltas.filter (fun r => !novelPred dates r) ↔ _
    rw [hnon, List.mem_filter]
    simp [hr]
  · exact sortByTs_sorted _
  · show (sortByTs (baseline ++ deltas.filter (novelPred dates))).Perm _
    rw [hnov]
    exact sortByTs_perm _
  · exact hnon

/-- Witness for C1's amended theorem at the counterexample input: the requested dates
are sorted, and the single delta (4 requested dates between as-of 0 and knowledge 3)
is retroactive. -/
theorem c1_novelty_classification_witness :
    List.Sorted (fun a b : Int => a ≤ b) [0, 1, 2, 3]
    ∧ ((∀ r ∈ [(⟨0, 3, 2⟩ : DRec)],
        r ∈ (overwrite_novel_deltas [⟨0, 0, 1⟩] [⟨0, 3, 2⟩] [0, 1, 2, 3]).2 ↔
          1 < interCount [0, 1, 2, 3] r)
      ∧ List.Pairwise (fun a b : DRec => a.ts ≤ b.ts)
          (overwrite_novel_deltas [⟨0, 0, 1⟩] [⟨0, 3, 2⟩] [0, 1, 2, 3]).1
      ∧ (overwrite_novel_deltas [⟨0, 0, 1⟩] [⟨0, 3, 2⟩] [0, 1, 2, 3]).1.Perm
          ([⟨0, 0, 1⟩] ++ [(⟨0, 3, 2⟩ : DRec)].filter
            (fun r => decide (interCount [0, 1, 2, 3] r ≤ 1)))
      ∧ (overwrite_novel_deltas [⟨0, 0, 1⟩] [⟨0, 3, 2⟩] [0, 1, 2, 3]).2 =
          [(⟨0, 3, 2⟩ : DRec)].filter
            (fun r => decide (1 < interCount [0, 1, 2, 3] r))) :=
  ⟨by decide, c1_novelty_classification [⟨0, 0, 1⟩] [⟨0, 3, 2⟩] [0, 1, 2, 3] (by decide)⟩

theorem nextAfter_cases (sparse : List Int) (a : Int) :
    (ssRight sparse a = sparse.length ∧ nextAfter sparse a = none) ∨
    (ssRight sparse a < sparse.length ∧
      nextAfter sparse a = some (sparse.getD (ssRight sparse a) 0)) := by
  induction sparse with
  | nil => exact Or.inl ⟨rfl, rfl⟩
  | cons x xs ih =>
    by_cases h : x ≤ a
    · have e1 : ssRight (x :: xs) a = ssRight xs a + 1 := by
        simp [ssRight, List.takeWhile_cons, h]
      have e2 : nextAfter (x :: xs) a = nextAfter xs a := by
        rw [nextAfter, nextAfter, List.find?_cons_of_neg]
        simp
        omega
      rcases ih with ⟨h1, h2⟩ | ⟨h1, h2⟩
      · refine Or.inl ⟨?_, ?_⟩
        · simp [e1, h1]
        · rw [e2, h2]
      · refine Or.inr ⟨?_, ?_⟩
        · simp only [e1, List.length_cons]
          omega
        · rw [e2, h2, e1, List.getD_cons_succ]
    · have e1 : ssRight (x :: xs) a = 0 := by
        simp [ssRight, List.takeWhile_cons, h]
      refine Or.inr ⟨?_, ?_⟩
      · simp [e1]
      · rw [e1, nextAfter, List.find?_cons_of_pos]
        · rfl
        · simp
          omega

/-- C2 (as amended): for a retroactive delta with non-null as-of date `A`, the
generated overwrite covers the dense calendar rows from `A`'s insertion position in
the requested dates up to, but not including, the position of the next later date in
the sparse date list it is given — which, per `_load_dataset` line 1048, is the merged
sparse output's *knowledge-date* (timestamp) column, not its as-of dates; if no later
date exists there, the overwrite extends through the last requested date; an as-of
date of NaT produces no overwrite at all. -/
theorem c2_overwrite_range (dense_dates sparse_dates : List Int)
    (hs : List.Sorted (· ≤ ·) sparse_dates) (a : Int) (idx : Int × Int) (v : ℚ) :
    (∀ row : Int,
      (∃ ow ∈ overwrite_from_dates (some a) dense_dates sparse_dates idx v,
        ow.firstRow ≤ row ∧ row ≤ ow.lastRow) ↔
      ((ssLeft dense_dates a : Int) ≤ row ∧
        (match nextAfter sparse_dates a with
          | some d => row ≤ (ssLeft dense_dates d : Int) - 1
          | none => row ≤ (dense_dates.length : Int) - 1)))
    ∧ overwrite_from_dates none dense_dates sparse_dates idx v = [] := by
  refine ⟨?_, rfl⟩
  intro row
  rcases nextAfter_cases sparse_dates a with ⟨h1, h2⟩ | ⟨h1, h2⟩
  · rw [h2]
    simp only [overwrite_from_dates, if_pos h1]
    by_cases hfl : ((ssLeft dense_dates a : Nat) : Int) > (dense_dates.length : Int) - 1
    · rw [if_pos hfl]
      simp only [List.not_mem_nil, false_and, exists_false, false_iff, not_and, not_le]
      intro hrow
      omega
    · rw [if_neg hfl]
      simp only [List.mem_singleton, exists_eq_left]
  · rw [h2]
    simp only [overwrite_from_dates, if_neg (Nat.ne_of_lt h1)]
    by_cases hfl : ((ssLeft dense_dates a : Nat) : Int) >
        (ssLeft dense_dates (sparse_dates.getD (ssRight sparse_dates a) 0) : Int) - 1
    · rw [if_pos hfl]
      simp only [List.not_mem_nil, false_and, exists_false, false_iff, not_and, not_le]
      intro hrow
      omega
    · rw [if_neg hfl]
      simp only [List.mem_singleton, exists_eq_left]

/-- Witness for C2's amended theorem: dense dates `[0, 1, 2]`, sparse dates `[0, 2]`,
as-of date 1 — the overwrite covers exactly row 1 (the next later sparse date 2 sits
at dense position 2). -/
theorem c2_overwrite_range_witness :
    List.Sorted (fun a b : Int => a ≤ b) [0, 2]
    ∧ ((∀ row : Int,
        (∃ ow ∈ overwrite_from_dates (some 1) [0, 1, 2] [0, 2] (0, 0) 5,
          ow.firstRow ≤ row ∧ row ≤ ow.lastRow) ↔
        ((ssLeft [0, 1, 2] 1 : Int) ≤ row ∧
          (match nextAfter [0, 2] 1 with
            | some d => row ≤ (ssLeft [0, 1, 2] d : Int) - 1
            | none => row ≤ (([0, 1, 2] : List Int).length : Int) - 1)))
      ∧ overwrite_from_dates none [0, 1, 2] [0, 2] (0, 0) 5 = []) :=
  ⟨by decide, c2_overwrite_range [0, 1, 2] [0, 2] (by decide) 1 (0, 0) 5⟩

/-- C6 (confirmed): after a history call rebuilds the cache entry for key
`(frozenset(assets), field, size)` — with the request inside the reader's data and a
stored expiry equal to the calendar session at
`min(end index + prefetch length, last session index)` — every subsequent ensure call
with the same key whose end date is at most that expiry is served from the cached
`SlidingWindow` with zero collaborator reads and an unchanged cache; once the
requested end date exceeds the expiry, the entry is expired and the window is rebuilt
(one collaborator read) and stored with a new prefetch horizon computed the same way
from the new end index. -/
theorem c6_prefetch_cache (L : LoaderCtx) (s0 : LoaderState) (assets : List Nat)
    (start1 stop1 : Int) (size : Nat) (field : FieldName) (b1 : SlidingWindowM)
    (s1 : LoaderState) (n1 : Nat) (E : Int)
    (hmiss : ∀ co, lookupBlock s0.blocks (canonKey assets field size) = some co →
      co.expires < stop1)
    (hbranch : L.calendar.getD 0 0 ≤ start1)
    (hrun : ensure_sliding_window L s0 assets start1 stop1 size field = (b1, s1, n1))
    (hE : E = L.calendar.getD (min (getLoc L.calendar stop1 + L.prefetchLength)
      (L.calendar.length - 1)) 0) :
    n1 = 1
    ∧ lookupBlock s1.blocks (canonKey assets field size) = some ⟨b1, E⟩
    ∧ (∀ start2 stop2 : Int, stop2 ≤ E →
        ensure_sliding_window L s1 assets start2 stop2 size field = (b1, s1, 0))
    ∧ (∀ start2 stop2 : Int, E < stop2 → L.calendar.getD 0 0 ≤ start2 →
        (ensure_sliding_window L s1 assets start2 stop2 size field).2.2 = 1
        ∧ lookupBlock
            (ensure_sliding_window L s1 assets start2 stop2 size field).2.1.blocks
            (canonKey assets field size) =
          some ⟨(ensure_sliding_window L s1 assets start2 stop2 size field).1,
            L.calendar.getD (min (getLoc L.calendar stop2 + L.prefetchLength)
              (L.calendar.length - 1)) 0⟩) := by
  have hexp1 : rebuildExpiry L start1 stop1 = E := by
    rw [hE, rebuildExpiry, rebuildEndIx, if_neg (not_lt.mpr hbranch)]
  rw [ensure_miss L s0 assets start1 stop1 size field hmiss] at hrun
  obtain ⟨hb, hs, hn⟩ : b1 = rebuildBlock L assets start1 stop1 size field
      ∧ s1 = ⟨(canonKey assets field size,
          ⟨rebuildBlock L assets start1 stop1 size field,
            rebuildExpiry L start1 stop1⟩) :: s0.blocks⟩
      ∧ n1 = 1 := by
    have h1 := congrArg Prod.fst hrun
    have h2 := congrArg (fun p => p.2.1) hrun
    have h3 := congrArg (fun p => p.2.2) hrun
    exact ⟨h1.symm, h2.symm, h3.symm⟩
  have hlook : lookupBlock s1.blocks (canonKey assets field size) =
      some ⟨b1, E⟩ := by
    rw [hs, hb, ← hexp1]
    exact lookupBlock_cons_self _ _ _
  refine ⟨hn, hlook, ?_, ?_⟩
  · intro start2 stop2 hle
    exact ensure_hit L s1 assets start2 stop2 size field ⟨b1, E⟩ hlook hle
  · intro start2 stop2 hgt hbranch2
    have hmiss2 : ∀ co, lookupBlock s1.blocks (canonKey assets field size) = some co →
        co.expires < stop2 := by
      intro co hco
      rw [hlook] at hco
      cases hco
      exact hgt
    rw [ensure_miss L s1 assets start2 stop2 size field hmiss2]
    have hexp2 : rebuildExpiry L start2 stop2 =
        L.calendar.getD (min (getLoc L.calendar stop2 + L.prefetchLength)
          (L.calendar.length - 1)) 0 := by
      rw [rebuildExpiry, rebuildEndIx, if_neg (not_lt.mpr hbranch2)]
    exact ⟨rfl, by rw [hexp2]; exact lookupBlock_cons_self _ _ _⟩

/-- A 61-session calendar for the C6 witness. -/
def calC6 : List Int := (List.range 61).map (fun n => (n : Int))

/-- The C6 witness loader: 61 sessions, constant raw data, no adjustment reader, the
daily prefetch length. -/
def loaderC6 : LoaderCtx := ⟨calC6, calC6, fun _ _ => some 5, none, dailyPrefetchLength⟩

/-- Witness for C6 at a concrete loader: the first ensure call (end date 1) rebuilds
and stores expiry 41 = session at `min(1 + 40, 60)`; any later end date up to 41 is a
pure cache hit and any end date past 41 rebuilds. -/
theorem c6_prefetch_cache_witness :
    (∀ co, lookupBlock (⟨[]⟩ : LoaderState).blocks (canonKey [1] .close 2) = some co →
      co.expires < 1)
    ∧ loaderC6.calendar.getD 0 0 ≤ 0
    ∧ ((ensure_sliding_window loaderC6 ⟨[]⟩ [1] 0 1 2 .close).2.2 = 1
      ∧ lookupBlock (ensure_sliding_window loaderC6 ⟨[]⟩ [1] 0 1 2 .close).2.1.blocks
          (canonKey [1] .close 2) =
        some ⟨(ensure_sliding_window loaderC6 ⟨[]⟩ [1] 0 1 2 .close).1, 41⟩
      ∧ (∀ start2 stop2 : Int, stop2 ≤ 41 →
          ensure_sliding_window loaderC6
            (ensure_sliding_window loaderC6 ⟨[]⟩ [1] 0 1 2 .close).2.1 [1] start2 stop2
            2 .close =
          ((ensure_sliding_window loaderC6 ⟨[]⟩ [1] 0 1 2 .close).1,
            (ensure_sliding_window loaderC6 ⟨[]⟩ [1] 0 1 2 .close).2.1, 0))
      ∧ (∀ start2 stop2 : Int, 41 < stop2 → loaderC6.calendar.getD 0 0 ≤ start2 →
          (ensure_sliding_window loaderC6
            (ensure_sliding_window loaderC6 ⟨[]⟩ [1] 0 1 2 .close).2.1 [1] start2 stop2
            2 .close).2.2 = 1
          ∧ lookupBlock (ensure_sliding_window loaderC6
              (ensure_sliding_window loaderC6 ⟨[]⟩ [1] 0 1 2 .close).2.1 [1] start2
              stop2 2 .close).2.1.blocks (canonKey [1] .close 2) =
            some ⟨(ensure_sliding_window loaderC6
              (ensure_sliding_window loaderC6 ⟨[]⟩ [1] 0 1 2 .close).2.1 [1] start2
              stop2 2 .close).1,
              loaderC6.calendar.getD (min (getLoc loaderC6.calendar stop2 +
                loaderC6.prefetchLength) (loaderC6.calendar.length - 1)) 0⟩)) :=
  by
  refine ⟨(fun _ h => nomatch h), by decide, ?_⟩
  exact c6_prefetch_cache loaderC6 ⟨[]⟩ [1] 0 1 2 .close _ _ _ 41
    (fun _ h => nomatch h) (by decide) rfl (by decide)

theorem dictInsert_fresh (d : List (Nat × Nat)) (k v : Nat)
    (h : ∀ p ∈ d, p.1 ≠ k) : dictInsert d k v = d ++ [(k, v)] := by
  unfold dictInsert
  rw [if_neg]
  simp only [List.any_eq_true, beq_iff_eq, not_exists, not_and]
  intro p hp
  exact h p hp

theorem foldl_dictInsert (pairs : List (Nat × Nat)) (d : List (Nat × Nat))
    (hnd : (pairs.map Prod.snd).Nodup)
    (hd : ∀ p ∈ d, p.1 ∉ pairs.map Prod.snd) :
    pairs.foldl (fun acc q => dictInsert acc q.2 q.1) d =
      d ++ pairs.map (fun q => (q.2, q.1)) := by
  induction pairs generalizing d with
  | nil => simp
  | cons q qs ih =>
    simp only [List.map_cons, List.nodup_cons] at hnd
    simp only [List.foldl_cons, List.map_cons]
    rw [dictInsert_fresh d q.2 q.1 (fun p hp => by
      have := hd p hp
      simp only [List.map_cons, List.mem_cons, not_or] at this
      exact this.1)]
    rw [ih (d ++ [(q.2, q.1)]) hnd.2 ?_]
    · simp
    · intro p hp
      rcases List.mem_append.mp hp with hp1 | hp2
      · have := hd p hp1
        simp only [List.map_cons, List.mem_cons, not_or] at this
        exact this.2
      · have : p = (q.2, q.1) := by simpa using hp2
        rw [this]
        exact hnd.1

theorem sidsDict_eq_enum (assets : List Nat) (hnd : assets.Nodup) :
    sidsDict assets = assets.enum.map (fun q => (q.2, q.1)) := by
  unfold sidsDict
  rw [foldl_dictInsert assets.enum [] (by rw [List.enum_map_snd]; exact hnd)
    (fun p hp => by simp at hp)]
  simp

theorem mem_enum_iff (l : List Nat) (i a : Nat) :
    (i, a) ∈ l.enum ↔ ∃ h : i < l.length, l[i] = a := by
  constructor
  · intro h
    have h2 := List.mem_enum h
    exact ⟨h2.1, h2.2.symm⟩
  · rintro ⟨h, rfl⟩
    have hlen : i < l.enum.length := by simpa [List.enum_length] using h
    have h3 := List.getElem_enum l i hlen
    rw [← h3]
    exact List.getElem_mem hlen

theorem procEvents_mem (events : List AdjEvent) (days : List Int) (start stop : Int)
    (i : Nat) (rf : ℚ → ℚ) (loc : Int) (m : Float64Multiply) :
    (loc, m) ∈ procEvents events days start stop i rf ↔
    ∃ ev ∈ events, start < ev.dt ∧ ev.dt ≤ stop ∧ loc = (getLoc days ev.dt : Int) ∧
      m = ⟨0, (getLoc days ev.dt : Int) - 1, (i : Int), (i : Int), rf ev.factor⟩ := by
  unfold procEvents
  simp only [List.mem_map, List.mem_filter, Bool.and_eq_true, decide_eq_true_eq,
    Prod.mk.injEq]
  constructor
  · rintro ⟨ev, ⟨hev, h1, h2⟩, hloc, hm⟩
    exact ⟨ev, hev, h1, h2, hloc.symm, hm.symm⟩
  · rintro ⟨ev, hev, h1, h2, hloc, hm⟩
    exact ⟨ev, ⟨hev, h1, h2⟩, hloc.symm, hm.symm⟩

/-- C3 (confirmed): when a sliding window's adjustments are collected for assets over
the prefetched day range, an event of any kind for the asset at position `i` produces
a correction exactly when its effective date `dt` satisfies `start < dt ≤ end` over
that range (events dated exactly at the range start are excluded); each produced
correction is a multiplicative correction spanning rows `0 .. get_loc(dt) - 1` and
exactly the single column `i`, stored in the schedule under trigger row `get_loc(dt)`,
a genuine position of `dt` in the prefetched days.  Hypothesis `hdays`: every event
effective-dated inside `(start, end]` falls on a prefetched day — the source computes
`days.get_loc(dt)` outside its `except KeyError` (lines 124, 139, 158), so Python
raises and builds no schedule at all otherwise, per this file's convention of a
membership hypothesis wherever the code would raise `KeyError`.  (Because the caller
passes the column object, mergers and dividends are processed for every field argument
of column form; the characterization covers the general field argument.) -/
theorem c3_adjustments_in_range (getAdj : AdjKind → Nat → List AdjEvent)
    (fa : FieldArg) (assets : List Nat) (days : List Int) (hnd : assets.Nodup)
    (hdays : ∀ (kind : AdjKind), ∀ sid ∈ assets, ∀ ev ∈ getAdj kind sid,
      days.headD 0 < ev.dt → ev.dt ≤ days.getLastD 0 → ev.dt ∈ days)
    (loc : Int) (m : Float64Multiply) :
    (loc, m) ∈ get_adjustments_in_range getAdj fa assets days ↔
    ∃ (i : Nat) (hi : i < assets.length) (kind : AdjKind),
      (kind = .splits ∨ fa.isVolumeStr = false)
      ∧ ∃ ev ∈ getAdj kind assets[i],
        days.headD 0 < ev.dt ∧ ev.dt ≤ days.getLastD 0
        ∧ ev.dt ∈ days
        ∧ loc = (getLoc days ev.dt : Int)
        ∧ m = ⟨0, (getLoc days ev.dt : Int) - 1, (i : Int), (i : Int),
            if kind = .splits ∧ fa.isVolumeStr = true then 1 / ev.factor
            else ev.factor⟩ := by
  unfold get_adjustments_in_range
  rw [sidsDict_eq_enum assets hnd, List.mem_flatMap]
  constructor
  · rintro ⟨p, hp, hmem⟩
    obtain ⟨q, hq, hpq⟩ := List.mem_map.mp hp
    obtain ⟨i, sid⟩ := q
    obtain ⟨hi, hsid⟩ := (mem_enum_iff assets i sid).mp hq
    rcases List.mem_append.mp hmem with hmd | hsp
    · by_cases hv : fa.isVolumeStr = true
      · rw [if_neg (by simp [hv])] at hmd
        exact absurd hmd (List.not_mem_nil _)
      · rw [if_pos (by simp [hv])] at hmd
        rcases List.mem_append.mp hmd with hm1 | hm1
        all_goals
          rw [← hpq] at hm1
          obtain ⟨ev, hev, h1, h2, h3, h4⟩ := (procEvents_mem _ _ _ _ _ _ _ _).mp hm1
        · refine ⟨i, hi, .mergers, Or.inr (by simpa using hv), ev, by rw [hsid]; exact hev,
            h1, h2, hdays .mergers sid (hsid ▸ List.getElem_mem hi) ev hev h1 h2,
            h3, ?_⟩
          rw [h4]
          simp [hv]
        · refine ⟨i, hi, .dividends, Or.inr (by simpa using hv), ev, by rw [hsid]; exact hev,
            h1, h2, hdays .dividends sid (hsid ▸ List.getElem_mem hi) ev hev h1 h2,
            h3, ?_⟩
          rw [h4]
          simp [hv]
    · rw [← hpq] at hsp
      obtain ⟨ev, hev, h1, h2, h3, h4⟩ := (procEvents_mem _ _ _ _ _ _ _ _).mp hsp
      refine ⟨i, hi, .splits, Or.inl rfl, ev, by rw [hsid]; exact hev, h1, h2,
        hdays .splits sid (hsid ▸ List.getElem_mem hi) ev hev h1 h2, h3, ?_⟩
      rw [h4]
      by_cases hv : fa.isVolumeStr = true <;> simp [hv]
  · rintro ⟨i, hi, kind, hkind, ev, hev, h1, h2, hdtmem, h3, h4⟩
    refine ⟨(assets[i], i), List.mem_map.mpr ⟨(i, assets[i]),
      (mem_enum_iff assets i assets[i]).mpr ⟨hi, rfl⟩, rfl⟩, ?_⟩
    rw [List.mem_append]
    cases kind with
    | mergers =>
      rcases hkind with hk | hv
      · exact absurd hk (by simp)
      · refine Or.inl ?_
        rw [if_pos (by simp [hv]), List.mem_append]
        refine Or.inl ((procEvents_mem _ _ _ _ _ _ _ _).mpr ⟨ev, hev, h1, h2, h3, ?_⟩)
        rw [h4]
        simp [hv]
    | dividends =>
      rcases hkind with hk | hv
      · exact absurd hk (by simp)
      · refine Or.inl ?_
        rw [if_pos (by simp [hv]), List.mem_append]
        refine Or.inr ((procEvents_mem _ _ _ _ _ _ _ _).mpr ⟨ev, hev, h1, h2, h3, ?_⟩)
        rw [h4]
        simp [hv]
    | splits =>
      refine Or.inr ((procEvents_mem _ _ _ _ _ _ _ _).mpr ⟨ev, hev, h1, h2, h3, ?_⟩)
      rw [h4]
      by_cases hv : fa.isVolumeStr = true <;> simp [hv]

/-- The C3 witness adjustment reader: one split (ratio 3) for sid 5 at day 2. -/
def adjReaderC3 : AdjKind → Nat → List AdjEvent :=
  fun k s => if k = .splits ∧ s = 5 then [⟨2, 3⟩] else []

/-- Witness for C3 at the concrete reader, asset list `[5]`, days `[0, 1, 2]`, and the
correction `(2, Multiply 0 1 0 0 3)`: the assets are distinct and the reader's only
event (day 2) falls on a prefetched day. -/
theorem c3_adjustments_in_range_witness :
    List.Nodup [5]
    ∧ (∀ (kind : AdjKind), ∀ sid ∈ [5], ∀ ev ∈ adjReaderC3 kind sid,
        ([0, 1, 2] : List Int).headD 0 < ev.dt →
        ev.dt ≤ ([0, 1, 2] : List Int).getLastD 0 → ev.dt ∈ ([0, 1, 2] : List Int))
    ∧ ((2, (⟨0, 1, 0, 0, 3⟩ : Float64Multiply)) ∈
        get_adjustments_in_range adjReaderC3 (.str .close) [5] [0, 1, 2] ↔
      ∃ (i : Nat) (hi : i < ([5] : List Nat).length) (kind : AdjKind),
        (kind = .splits ∨ FieldArg.isVolumeStr (.str .close) = false)
        ∧ ∃ ev ∈ adjReaderC3 kind (([5] : List Nat)[i]),
          ([0, 1, 2] : List Int).headD 0 < ev.dt
          ∧ ev.dt ≤ ([0, 1, 2] : List Int).getLastD 0
          ∧ ev.dt ∈ ([0, 1, 2] : List Int)
          ∧ (2 : Int) = (getLoc [0, 1, 2] ev.dt : Int)
          ∧ (⟨0, 1, 0, 0, 3⟩ : Float64Multiply) =
            ⟨0, (getLoc [0, 1, 2] ev.dt : Int) - 1, (i : Int), (i : Int),
              if kind = .splits ∧ FieldArg.isVolumeStr (.str .close) = true then
                1 / ev.factor
              else ev.factor⟩) :=
  ⟨by decide, by decide, c3_adjustments_in_range adjReaderC3 (.str .close) [5]
    [0, 1, 2] (by decide) (by decide) 2 ⟨0, 1, 0, 0, 3⟩⟩

theorem ffill_getD (xs : List (Option ℚ)) (prev : Option ℚ) (i : Nat)
    (hi : i < xs.length) :
    (ffill xs prev).getD i none = (xs.take (i + 1)).foldl ffillStep prev := by
  induction xs generalizing prev i with
  | nil => simp at hi
  | cons x xs ih =>
    cases i with
    | zero => simp [ffill, List.take_succ_cons]
    | succ i =>
      simp only [ffill, List.getD_cons_succ, List.take_succ_cons, List.foldl_cons]
      exact ih (ffillStep prev x) i (by simpa using hi)

theorem foldl_ffillStep_none (l : List (Option ℚ)) (a : Option ℚ)
    (h : ∀ x ∈ l, x = none) : l.foldl ffillStep a = a := by
  induction l generalizing a with
  | nil => rfl
  | cons x xs ih =>
    rw [List.foldl_cons, h x (List.mem_cons_self x xs)]
    exact ih a (fun y hy => h y (List.mem_cons_of_mem x hy))

theorem fold_groups (k : Int × ℚ → Int) (ds : List Int) (rows : List (Int × ℚ))
    (hds : List.Sorted (· < ·) ds)
    (hmono : List.Pairwise (fun a b => k a ≤ k b) rows) :
    (ds.map (fun d =>
      ((rows.filter (fun r => decide (k r = d))).map Prod.snd).getLast?)).foldl
        ffillStep none =
    ((rows.filter (fun r => decide (k r ∈ ds))).map Prod.snd).getLast? := by
  induction rows using List.reverseRecOn with
  | nil =>
    rw [foldl_ffillStep_none]
    · simp
    · intro x hx
      obtain ⟨d, _, he⟩ := List.mem_map.mp hx
      simpa using he.symm
  | append_singleton rows r ih =>
    have hp := List.pairwise_append.mp hmono
    have hmono2 := hp.1
    have hall : ∀ a ∈ rows, k a ≤ k r := fun a ha => hp.2.2 a ha r (by simp)
    by_cases hin : k r ∈ ds
    · obtain ⟨ds1, ds2, rfl⟩ := List.append_of_mem hin
      have hgt : ∀ d ∈ ds2, k r < d := by
        have h1 := (List.pairwise_append.mp hds).2.1
        exact (List.pairwise_cons.mp h1).1
      have hgroup_mid : ((rows ++ [r]).filter (fun x => decide (k x = k r))).map
          Prod.snd = (rows.filter (fun x => decide (k x = k r))).map Prod.snd ++ [r.2] := by
        rw [List.filter_append, List.map_append]
        simp
      have hgroup_tail : ∀ d ∈ ds2,
          ((rows ++ [r]).filter (fun x => decide (k x = d))).map Prod.snd = [] := by
        intro d hd
        have : (rows ++ [r]).filter (fun x => decide (k x = d)) = [] := by
          rw [List.filter_eq_nil_iff]
          intro x hx
          rcases List.mem_append.mp hx with hx1 | hx1
          · have h1 := hall x hx1
            have h2 := hgt d hd
            simp only [decide_eq_true_eq]
            omega
          · have : x = r := by simpa using hx1
            subst this
            have h2 := hgt d hd
            simp only [decide_eq_true_eq]
            omega
        rw [this]
        rfl
      have hrhs : ((rows ++ [r]).filter
          (fun x => decide (k x ∈ ds1 ++ k r :: ds2))).map Prod.snd =
          ((rows.filter (fun x => decide (k x ∈ ds1 ++ k r :: ds2))).map Prod.snd) ++
            [r.2] := by
        rw [List.filter_append, List.map_append]
        have : [r].filter (fun x => decide (k x ∈ ds1 ++ k r :: ds2)) = [r] := by
          simp
        rw [this]
        rfl
      rw [hrhs, List.getLast?_concat]
      rw [List.map_append, List.map_cons, List.foldl_append, List.foldl_cons]
      rw [hgroup_mid, List.getLast?_concat]
      have hstep : ffillStep
          ((ds1.map (fun d => (((rows ++ [r]).filter
            (fun x => decide (k x = d))).map Prod.snd).getLast?)).foldl ffillStep none)
          (some r.2) = some r.2 := rfl
      rw [hstep]
      apply foldl_ffillStep_none
      intro x hx
      obtain ⟨d, hd, he⟩ := List.mem_map.mp hx
      rw [hgroup_tail d hd] at he
      exact he.symm
    · have hone : [r].filter (fun x => decide (k x ∈ ds)) = [] := by
        simp [hin]
      have hrhs : (rows ++ [r]).filter (fun x => decide (k x ∈ ds)) =
          rows.filter (fun x => decide (k x ∈ ds)) := by
        rw [List.filter_append, hone, List.append_nil]
      have hmaps : ds.map (fun d =>
          (((rows ++ [r]).filter (fun x => decide (k x = d))).map Prod.snd).getLast?) =
          ds.map (fun d =>
            ((rows.filter (fun x => decide (k x = d))).map Prod.snd).getLast?) := by
        apply List.map_congr_left
        intro d hd
        have : [r].filter (fun x => decide (k x = d)) = [] := by
          have : k r ≠ d := fun he => hin (he ▸ hd)
          simp [this]
        rw [List.filter_append, this, List.append_nil]
      rw [hrhs, hmaps]
      exact ih hmono2

theorem ssLeft_mono (xs : List Int) (v w : Int) (h : v ≤ w) :
    ssLeft xs v ≤ ssLeft xs w := by
  induction xs with
  | nil => exact le_refl _
  | cons x xs ih =>
    by_cases h1 : x < v
    · have h2 : x < w := lt_of_lt_of_le h1 h
      have e1 : ssLeft (x :: xs) v = ssLeft xs v + 1 := by
        simp [ssLeft, List.takeWhile_cons, h1]
      have e2 : ssLeft (x :: xs) w = ssLeft xs w + 1 := by
        simp [ssLeft, List.takeWhile_cons, h2]
      rw [e1, e2]
      omega
    · have e1 : ssLeft (x :: xs) v = 0 := by
        simp [ssLeft, List.takeWhile_cons, h1]
      rw [e1]
      exact Nat.zero_le _

theorem sorted_getElem_le (xs : List Int) (h : List.Sorted (· < ·) xs) (p q : Nat)
    (hp : p < xs.length) (hq : q < xs.length) (hpq : p ≤ q) :
    xs[p] ≤ xs[q] := by
  rcases Nat.lt_or_eq_of_le hpq with h1 | h1
  · have h2 := List.pairwise_iff_get.mp h ⟨p, hp⟩ ⟨q, hq⟩ h1
    simp only [List.get_eq_getElem] at h2
    exact le_of_lt h2
  · subst h1
    exact le_refl _

theorem getElem_mem_take_iff (dates : List Int) (h : List.Sorted (· < ·) dates)
    (i j : Nat) (hi : i < dates.length) (hj : j < dates.length) :
    dates[j] ∈ dates.take (i + 1) ↔ dates[j] ≤ dates[i] := by
  constructor
  · intro hm
    obtain ⟨a, ha, he⟩ := List.mem_iff_getElem.mp hm
    have ha2 : a < dates.length := by
      have := List.length_take (i + 1) dates
      omega
    have hai : a ≤ i := by
      have := List.length_take (i + 1) dates
      omega
    rw [List.getElem_take] at he
    rw [← he]
    exact sorted_getElem_le dates h a i ha2 hi hai
  · intro hle
    have hji : j ≤ i := by
      by_contra hgt
      push_neg at hgt
      have := List.pairwise_iff_get.mp h ⟨i, hi⟩ ⟨j, hj⟩ hgt
      simp only [List.get_eq_getElem] at this
      omega
    have hjt : j < (dates.take (i + 1)).length := by
      rw [List.length_take]
      omega
    have he : (dates.take (i + 1))[j] = dates[j] := List.getElem_take dates
    rw [← he]
    exact List.getElem_mem hjt

theorem denseOutput_char (dates : List Int) (rows : List (Int × ℚ))
    (hdates : List.Sorted (· < ·) dates)
    (hrows : List.Pairwise (fun a b : Int × ℚ => a.1 ≤ b.1) rows)
    (hin : ∀ r ∈ rows, ssLeft dates r.1 < dates.length)
    (i : Nat) (hi : i < dates.length) :
    (denseOutput dates rows).getD i none =
      ((rows.filter (fun r => decide (tsKey dates r.1 ≤ dates[i]))).map
        Prod.snd).getLast? := by
  have hmono : List.Pairwise
      (fun a b => (fun r : Int × ℚ => tsKey dates r.1) a ≤
        (fun r : Int × ℚ => tsKey dates r.1) b) rows := by
    apply List.Pairwise.imp_of_mem (l := rows) ?_ hrows
    intro a b ha hb hle
    have hina := hin a ha
    have hinb := hin b hb
    have hss := ssLeft_mono dates a.1 b.1 hle
    show dates.getD (ssLeft dates a.1) 0 ≤ dates.getD (ssLeft dates b.1) 0
    rw [List.getD_eq_getElem dates 0 hina, List.getD_eq_getElem dates 0 hinb]
    exact sorted_getElem_le dates hdates _ _ hina hinb hss
  have htake : List.Sorted (· < ·) (dates.take (i + 1)) :=
    List.Pairwise.sublist (List.take_sublist (i + 1) dates) hdates
  unfold denseOutput lastInDateGroup
  rw [ffill_getD _ _ i (by simpa using hi)]
  rw [← List.map_take]
  rw [fold_groups (fun r => tsKey dates r.1) (dates.take (i + 1)) rows htake hmono]
  have hpt : ∀ r ∈ rows,
      decide ((fun r : Int × ℚ => tsKey dates r.1) r ∈ dates.take (i + 1)) =
        decide (tsKey dates r.1 ≤ dates[i]) := by
    intro r hr
    have hinr := hin r hr
    have hkey : tsKey dates r.1 = dates[ssLeft dates r.1] := by
      rw [tsKey, List.getD_eq_getElem dates 0 hinr]
    show decide (tsKey dates r.1 ∈ dates.take (i + 1)) =
      decide (tsKey dates r.1 ≤ dates[i])
    rw [hkey]
    rw [decide_eq_decide]
    exact getElem_mem_take_iff dates hdates i (ssLeft dates r.1) hi hinr
  rw [List.filter_congr hpt]

/-- C8 (confirmed): for every requested calendar date `dates[i]` of the dense
reconciled output — per asset when a sid column is present — the dense value is the
value of the last record, in knowledge order, among the records whose knowledge date
maps to a calendar date at or before `dates[i]` (`getLast?` of that filter); in
particular it is NaN (`none`) exactly when no such record exists, and within a single
mapped calendar day the last record in knowledge order wins before reindexing and
forward-filling.  Hypotheses: the requested dates are strictly increasing, the merged
table is sorted by knowledge date (as `overwrite_novel_deltas` leaves it), and every
knowledge date maps inside the requested range (Python raises otherwise). -/
theorem c8_dense_forward_fill :
    (∀ (dates : List Int) (df : List DRec), List.Sorted (· < ·) dates →
      List.Pairwise (fun a b : DRec => a.ts ≤ b.ts) df →
      (∀ r ∈ df, ssLeft dates r.ts < dates.length) →
      ∀ (i : Nat) (hi : i < dates.length),
        (denseOutput dates (noSidRows df)).getD i none =
          ((df.filter (fun r => decide (tsKey dates r.ts ≤ dates[i]))).map
            DRec.val).getLast?)
    ∧ (∀ (dates : List Int) (df : List SRec) (s : Nat), List.Sorted (· < ·) dates →
      List.Pairwise (fun a b : SRec => a.ts ≤ b.ts) df →
      (∀ r ∈ df, ssLeft dates r.ts < dates.length) →
      ∀ (i : Nat) (hi : i < dates.length),
        (denseOutput dates (sidRows df s)).getD i none =
          ((df.filter (fun r => r.sid == s &&
              decide (tsKey dates r.ts ≤ dates[i]))).map SRec.val).getLast?) := by
  constructor
  · intro dates df hdates hdf hin i hi
    have h1 := denseOutput_char dates (noSidRows df) hdates ?_ ?_ i hi
    · rw [h1]
      unfold noSidRows
      rw [List.filter_map, List.map_map]
      rfl
    · unfold noSidRows
      rw [List.pairwise_map]
      exact hdf
    · intro r hr
      obtain ⟨r0, hr0, he⟩ := List.mem_map.mp hr
      rw [← he]
      exact hin r0 hr0
  · intro dates df s hdates hdf hin i hi
    have h1 := denseOutput_char dates (sidRows df s) hdates ?_ ?_ i hi
    · rw [h1]
      unfold sidRows
      rw [List.filter_map, List.map_map, List.filter_filter]
      have hcongr : List.filter
          (fun a => ((fun r : Int × ℚ => decide (tsKey dates r.1 ≤ dates[i])) ∘
            fun r : SRec => (r.ts, r.val)) a && (a.sid == s)) df =
          List.filter (fun r : SRec => (r.sid == s) &&
            decide (tsKey dates r.ts ≤ dates[i])) df :=
        List.filter_congr (fun r _ => Bool.and_comm _ _)
      rw [hcongr]
      rfl
    · unfold sidRows
      rw [List.pairwise_map]
      exact List.Pairwise.filter _ hdf
    · intro r hr
      obtain ⟨r0, hr0, he⟩ := List.mem_map.mp hr
      rw [← he]
      exact hin r0 (List.mem_of_mem_filter hr0)

/-- Witness for C8 at requested dates `[0, 2, 4]` and a three-record merged table. -/
theorem c8_dense_forward_fill_witness :
    List.Sorted (fun a b : Int => a < b) [0, 2, 4]
    ∧ List.Pairwise (fun a b : DRec => a.ts ≤ b.ts)
        [⟨0, 0, 1⟩, ⟨1, 1, 7⟩, ⟨4, 4, 9⟩]
    ∧ (∀ r ∈ [(⟨0, 0, 1⟩ : DRec), ⟨1, 1, 7⟩, ⟨4, 4, 9⟩],
        ssLeft [0, 2, 4] r.ts < ([0, 2, 4] : List Int).length)
    ∧ (∀ (i : Nat) (hi : i < ([0, 2, 4] : List Int).length),
        (denseOutput [0, 2, 4]
          (noSidRows [⟨0, 0, 1⟩, ⟨1, 1, 7⟩, ⟨4, 4, 9⟩])).getD i none =
          (([(⟨0, 0, 1⟩ : DRec), ⟨1, 1, 7⟩, ⟨4, 4, 9⟩].filter
            (fun r => decide (tsKey [0, 2, 4] r.ts ≤ ([0, 2, 4] : List Int)[i]))).map
              DRec.val).getLast?) := by
  refine ⟨by decide, by decide, by decide, ?_⟩
  exact c8_dense_forward_fill.1 [0, 2, 4] [⟨0, 0, 1⟩, ⟨1, 1, 7⟩, ⟨4, 4, 9⟩]
    (by decide) (by decide) (by decide)
